import Mathlib

/-!
Shallow embedding of `src/swiftocr.py` (the in-scope query core: `BoundingBox`,
`OCRResult`, `OCRResults`), followed by theorems settling the claims.

Modelling conventions:
* Python `float` confidence values and similarity scores are modelled as `ℚ`
  (the claims only use their linear order).
* The pluggable scoring function `score_func : Callable[[str, str], float]`
  is a parameter `String → String → ℚ`.
* Python `str.lower` is modelled by `String.toLower`.
* The Python regex primitive `re.match(pattern, string, flags)` is external
  library code, so `OCRResults.matching` takes it as a parameter
  `reMatch : String → String → Int → Bool` (pattern, string, flags);
  the source calls it with the fragment text in the pattern slot and the
  pattern in the string slot, exactly as `re.match(item["text"], pattern, flag)`
  does on line 304 of the source.
* Python list indexing / slicing semantics (negative indices, clamping) are
  implemented by `pyIndex` and `pySlice`.
-/

namespace SwiftOCR

/-- Axis-aligned rectangle; the four fields shared by the Python
`BoundingBoxDict` and the `BoundingBox` class. -/
structure BoundingBox where
  x : Int
  y : Int
  width : Int
  height : Int
deriving DecidableEq, Repr, Inhabited

/-- A raw OCR record, the shape of `OCRResultDict`. -/
structure OCRResultDict where
  text : String
  confidence : ℚ
  boundingBox : BoundingBox
deriving DecidableEq, Repr, Inhabited

/-- A parsed fragment, the `OCRResult` class: text, confidence, bounding box. -/
structure OCRResult where
  text : String
  confidence : ℚ
  bounding_box : BoundingBox
deriving DecidableEq, Repr, Inhabited

/-- Models `OCRResult.data`: rebuilds the raw dictionary from the parsed fields. -/
def OCRResult.data (r : OCRResult) : OCRResultDict :=
  ⟨r.text, r.confidence, r.bounding_box⟩

/-- The `other` argument of `OCRResult.__eq__`: `Union[OCRResult, str]`. -/
inductive EqOther where
  | str (s : String)
  | result (r : OCRResult)

/-- Models `OCRResult.__eq__`: against a string, compare `text`; against another
`OCRResult`, compare the rebuilt `data` dictionaries. -/
def OCRResult.pyEq (self : OCRResult) (other : EqOther) : Bool :=
  match other with
  | .str s => decide (self.text = s)
  | .result r => decide (self.data = r.data)

/-- Parsing one raw record into an `OCRResult`, as in `OCRResults.__init__`. -/
def parse (d : OCRResultDict) : OCRResult :=
  ⟨d.text, d.confidence, ⟨d.boundingBox.x, d.boundingBox.y,
    d.boundingBox.width, d.boundingBox.height⟩⟩

/-- The `OCRResults` collection; `data` is the authoritative raw-record list. -/
structure OCRResults where
  data : List OCRResultDict
deriving DecidableEq, Repr

/-- Models `OCRResults.items`: the parsed view, in lockstep with `data`. -/
def OCRResults.items (c : OCRResults) : List OCRResult :=
  c.data.map parse

/-- Python substring containment `needle in hay` on character lists. -/
def subIn (needle hay : List Char) : Bool :=
  needle.isPrefixOf hay ||
    match hay with
    | [] => false
    | _ :: t => subIn needle t

/-- Python `needle in hay` for strings. -/
def strIn (needle hay : String) : Bool :=
  subIn needle.toList hay.toList

/-- Models `OCRResults.minimum_confidence`: keep records with `confidence >= threshold`. -/
def OCRResults.minimum_confidence (c : OCRResults) (threshold : ℚ) : OCRResults :=
  ⟨c.data.filter (fun item => decide (item.confidence ≥ threshold))⟩

/-- Models `OCRResults.within`: keep records whose bounding box is fully enclosed by
the given rectangle. -/
def OCRResults.within (c : OCRResults) (x y width height : Int) : OCRResults :=
  ⟨c.data.filter (fun item =>
    decide (x ≤ item.boundingBox.x) &&
    decide (y ≤ item.boundingBox.y) &&
    decide (x + width ≥ item.boundingBox.x + item.boundingBox.width) &&
    decide (y + height ≥ item.boundingBox.y + item.boundingBox.height))⟩

/-- Models `OCRResults.containing`: keep records whose text contains `text` as a
substring, case-folding both sides when `lowercase` is set. -/
def OCRResults.containing (c : OCRResults) (text : String)
    (lowercase : Bool := false) : OCRResults :=
  if lowercase then
    ⟨c.data.filter (fun item => strIn text.toLower item.text.toLower)⟩
  else
    ⟨c.data.filter (fun item => strIn text item.text)⟩

/-- Models `OCRResults.exactly`: keep records whose text equals `text` exactly,
case-folding both sides when `lowercase` is set. -/
def OCRResults.exactly (c : OCRResults) (text : String)
    (lowercase : Bool := false) : OCRResults :=
  if lowercase then
    ⟨c.data.filter (fun item => decide (text.toLower = item.text.toLower))⟩
  else
    ⟨c.data.filter (fun item => decide (text = item.text))⟩

/-- Models `OCRResults.matching`: the source line 304 is
`re.match(item["text"], pattern, flag)` — the fragment text is passed in the
pattern slot of the regex primitive and the pattern in the string slot. -/
def OCRResults.matching (c : OCRResults) (reMatch : String → String → Int → Bool)
    (pattern : String) (flag : Int := 0) : OCRResults :=
  ⟨c.data.filter (fun item => reMatch item.text pattern flag)⟩

/-- Models `OCRResults.filter`: keep records satisfying a caller-supplied predicate. -/
def OCRResults.filter (c : OCRResults) (func : OCRResultDict → Bool) : OCRResults :=
  ⟨c.data.filter func⟩

/-- Models `query.lower() if lowercase else query`. -/
def procStr (lowercase : Bool) (s : String) : String :=
  if lowercase then s.toLower else s

/-- The sort key of `_search_and_score`:
`(-score, boundingBox.x, boundingBox.y, confidence)`. -/
def sortKey (m : ℚ × OCRResultDict) : ℚ × Int × Int × ℚ :=
  (-m.1, m.2.boundingBox.x, m.2.boundingBox.y, m.2.confidence)

/-- One lexicographic layer: strictly smaller first component, or equal first
components and `le2`-related second components. -/
def lexLe {α β : Type} [LinearOrder α] (le2 : β → β → Bool) (a b : α × β) : Bool :=
  decide (a.1 < b.1) || (decide (a.1 = b.1) && le2 a.2 b.2)

/-- Boolean `≤` on rationals, the innermost comparison of the sort key. -/
def ratLeB (p q : ℚ) : Bool :=
  decide (p ≤ q)

/-- Lexicographic `≤` on the 4-tuple sort keys, as Python tuple comparison
orders them inside `sorted`. -/
def keyLe : ℚ × Int × Int × ℚ → ℚ × Int × Int × ℚ → Bool :=
  lexLe (lexLe (lexLe ratLeB))

/-- The comparison `sorted` uses: compare the sort keys of two scored records. -/
def matchLe (a b : ℚ × OCRResultDict) : Bool :=
  keyLe (sortKey a) (sortKey b)

/-- Models `OCRResults._search_and_score`: score every record against the query
(after the source's duplicated optional case-fold of the query), keep those
with `score >= threshold`, and sort by `(-score, x, y, confidence)`.
Python `sorted` with a key is a stable merge sort comparing keys with `≤`. -/
def OCRResults._search_and_score (c : OCRResults) (query : String) (threshold : ℚ)
    (lowercase : Bool) (score_func : String → String → ℚ) :
    List (ℚ × OCRResultDict) :=
  let query1 := procStr lowercase query
  let query2 := procStr lowercase query1
  let found := c.data.filterMap (fun d =>
    let target := procStr lowercase d.text
    let score := score_func query2 target
    if score ≥ threshold then some (score, d) else none)
  found.mergeSort matchLe

/-- Models `OCRResults.search`: the records of `_search_and_score`, scores dropped. -/
def OCRResults.search (c : OCRResults) (query : String) (threshold : ℚ)
    (lowercase : Bool) (score_func : String → String → ℚ) : OCRResults :=
  ⟨(c._search_and_score query threshold lowercase score_func).map (fun r => r.2)⟩

/-- Models `OCRResults.search_and_score`: zips the score list with the parsed
collection built from the record list. -/
def OCRResults.search_and_score (c : OCRResults) (query : String) (threshold : ℚ)
    (lowercase : Bool) (score_func : String → String → ℚ) :
    List (ℚ × OCRResult) :=
  let results := c._search_and_score query threshold lowercase score_func
  let scores := results.map (fun r => r.1)
  let ocr : OCRResults := ⟨results.map (fun r => r.2)⟩
  scores.zip ocr.items

/-- Models `OCRResults.first`: `self.items[0] if self.items else None`. -/
def OCRResults.first (c : OCRResults) : Option OCRResult :=
  c.items.head?

/-- Models `OCRResults.last`: `self.items[-1] if self.items else None`. -/
def OCRResults.last (c : OCRResults) : Option OCRResult :=
  c.items.getLast?

/-- Python list indexing with an `int` key: nonnegative positions directly,
negative positions from the end, `None` when out of bounds. -/
def pyIndex {α : Type} (l : List α) (i : Int) : Option α :=
  if 0 ≤ i then l.get? i.toNat
  else if -(l.length : Int) ≤ i then l.get? (i + l.length).toNat
  else none

/-- Effective bound of a Python slice endpoint for a list of length `n`. -/
def pyAdjust (n : Nat) (i : Int) : Nat :=
  if i < 0 then (max (i + n) 0).toNat else min i.toNat n

/-- Models Python `l[lo:hi]` (step 1). -/
def pySlice {α : Type} (l : List α) (lo hi : Int) : List α :=
  (l.take (pyAdjust l.length hi)).drop (pyAdjust l.length lo)

/-- The key of `OCRResults.__getitem__`: an `int`, a `slice`, or anything
else (`other`), which the source rejects with `TypeError`. -/
inductive Key where
  | int (i : Int)
  | slice (lo hi : Int)
  | other

/-- Error taxonomy of `__getitem__`: `IndexError` or `TypeError`. -/
inductive GetItemError where
  | indexKind
  | typeKind
deriving DecidableEq, Repr

/-- Result of `__getitem__`: a single fragment or a new collection. -/
inductive Item where
  | single (r : OCRResult)
  | collection (c : OCRResults)
deriving DecidableEq, Repr

/-- Models `OCRResults.__getitem__`: `self.items[key]` for an `int` key,
`OCRResults(self.data[key])` for a `slice` key, `TypeError` otherwise. -/
def OCRResults.getitem (c : OCRResults) (k : Key) : Except GetItemError Item :=
  match k with
  | .int i =>
    match pyIndex c.items i with
    | some r => .ok (.single r)
    | none => .error .indexKind
  | .slice lo hi => .ok (.collection ⟨pySlice c.data lo hi⟩)
  | .other => .error .typeKind

/-- The composite tie-break order the ranking sort establishes: score
descending primary, then `x` ascending, then `y` ascending, then confidence
ascending. -/
def compositeKeyLe (a b : ℚ × OCRResultDict) : Prop :=
  b.1 < a.1 ∨ (a.1 = b.1 ∧ (a.2.boundingBox.x < b.2.boundingBox.x ∨
    (a.2.boundingBox.x = b.2.boundingBox.x ∧ (a.2.boundingBox.y < b.2.boundingBox.y ∨
      (a.2.boundingBox.y = b.2.boundingBox.y ∧ a.2.confidence ≤ b.2.confidence)))))

/-- A concrete instance of the regex primitive `re.match(pattern, string,
flags)` restricted to metacharacter-free patterns, for which Python's
anchored match succeeds exactly when the pattern is a literal prefix of the
string. -/
def litMatch (pattern s : String) (flag : Int) : Bool :=
  pattern.toList.isPrefixOf s.toList

/-- Error raised by the regex compiler (Python `re.error`) on a malformed
pattern. -/
inductive ReError where
  | badPattern
deriving DecidableEq, Repr

/-- Effectful filter of a Python list comprehension whose condition may
raise: evaluates the condition left to right and propagates the first
error. -/
def filterE {ε α : Type} (p : α → Except ε Bool) : List α → Except ε (List α)
  | [] => Except.ok []
  | d :: t => do
    let b ← p d
    let r ← filterE p t
    if b then pure (d :: r) else pure r

/-- Models `OCRResults.matching` with the regex primitive's error channel:
Python's `re.match` raises `re.error` when the pattern is malformed, and the
source's swapped call on line 304 compiles each fragment's text as the
pattern, so that error is reachable on well-formed collections. -/
def OCRResults.matchingE (c : OCRResults)
    (reMatch : String → String → Int → Except ReError Bool)
    (pattern : String) (flag : Int := 0) : Except ReError OCRResults := do
  let kept ← filterE (fun item => reMatch item.text pattern flag) c.data
  pure (OCRResults.mk kept)

/-- A concrete fallible instance of the regex primitive, modelled from
Python `re.match`: a pattern containing "(" is an unterminated group and is
rejected by the regex compiler with `re.error`; otherwise, restricted to
metacharacter-free patterns, the anchored match succeeds exactly when the
pattern is a literal prefix of the string. -/
def litMatchE (pattern s : String) (flag : Int) : Except ReError Bool :=
  if pattern.toList.contains '(' then Except.error ReError.badPattern
  else Except.ok (pattern.toList.isPrefixOf s.toList)

theorem lexLe_trans {α β : Type} [LinearOrder α] {le2 : β → β → Bool}
    (t2 : ∀ x y z, le2 x y = true → le2 y z = true → le2 x z = true) :
    ∀ a b c : α × β, lexLe le2 a b = true → lexLe le2 b c = true →
      lexLe le2 a c = true := by
  intro a b c hab hbc
  simp only [lexLe, Bool.or_eq_true, Bool.and_eq_true, decide_eq_true_eq] at hab hbc ⊢
  rcases hab with h1 | ⟨e1, h1⟩ <;> rcases hbc with h2 | ⟨e2, h2⟩
  · exact Or.inl (h1.trans h2)
  · exact Or.inl (lt_of_lt_of_le h1 (le_of_eq e2))
  · exact Or.inl (lt_of_le_of_lt (le_of_eq e1) h2)
  · exact Or.inr ⟨e1.trans e2, t2 _ _ _ h1 h2⟩

theorem lexLe_total {α β : Type} [LinearOrder α] {le2 : β → β → Bool}
    (t2 : ∀ x y, le2 x y = true ∨ le2 y x = true) :
    ∀ a b : α × β, lexLe le2 a b = true ∨ lexLe le2 b a = true := by
  intro a b
  simp only [lexLe, Bool.or_eq_true, Bool.and_eq_true, decide_eq_true_eq]
  rcases lt_trichotomy a.1 b.1 with h | h | h
  · exact Or.inl (Or.inl h)
  · rcases t2 a.2 b.2 with h2 | h2
    · exact Or.inl (Or.inr ⟨h, h2⟩)
    · exact Or.inr (Or.inr ⟨h.symm, h2⟩)
  · exact Or.inr (Or.inl h)

theorem ratLeB_trans : ∀ p q r : ℚ, ratLeB p q = true → ratLeB q r = true →
    ratLeB p r = true := by
  intro p q r h1 h2
  simp only [ratLeB, decide_eq_true_eq] at h1 h2 ⊢
  exact h1.trans h2

theorem ratLeB_total : ∀ p q : ℚ, ratLeB p q = true ∨ ratLeB q p = true := by
  intro p q
  simp only [ratLeB, decide_eq_true_eq]
  exact le_total p q

theorem keyLe_trans : ∀ a b c, keyLe a b = true → keyLe b c = true →
    keyLe a c = true :=
  lexLe_trans (lexLe_trans (lexLe_trans ratLeB_trans))

theorem keyLe_total : ∀ a b, keyLe a b = true ∨ keyLe b a = true :=
  lexLe_total (lexLe_total (lexLe_total ratLeB_total))

theorem matchLe_trans : ∀ a b c : ℚ × OCRResultDict,
    matchLe a b → matchLe b c → matchLe a c := by
  intro a b c h1 h2
  exact keyLe_trans _ _ _ h1 h2

theorem matchLe_total : ∀ a b : ℚ × OCRResultDict, matchLe a b || matchLe b a := by
  intro a b
  rcases keyLe_total (sortKey a) (sortKey b) with h | h <;> simp [matchLe, h]

theorem matchLe_iff (a b : ℚ × OCRResultDict) :
    matchLe a b = true ↔ compositeKeyLe a b := by
  simp only [matchLe, keyLe, sortKey, lexLe, ratLeB, compositeKeyLe,
    Bool.or_eq_true, Bool.and_eq_true, decide_eq_true_eq, neg_lt_neg_iff, neg_inj]

theorem search_items_eq (c : OCRResults) (q : String) (t : ℚ) (lc : Bool)
    (f : String → String → ℚ) :
    (c.search q t lc f).items =
      (c._search_and_score q t lc f).map (fun r => parse r.2) := by
  simp [OCRResults.search, OCRResults.items, List.map_map, Function.comp]

theorem search_and_score_eq (c : OCRResults) (q : String) (t : ℚ) (lc : Bool)
    (f : String → String → ℚ) :
    c.search_and_score q t lc f =
      (c._search_and_score q t lc f).map (fun r => (r.1, parse r.2)) := by
  simp [OCRResults.search_and_score, OCRResults.items, List.map_map,
    List.zip_map', Function.comp]

theorem map_snd_scoreFilter (l : List OCRResultDict) (s : OCRResultDict → ℚ)
    (t : ℚ) :
    (l.filterMap (fun d => if s d ≥ t then some (s d, d) else none)).map
        (fun r => r.2) =
      l.filter (fun d => decide (s d ≥ t)) := by
  induction l with
  | nil => rfl
  | cons a l ih =>
    by_cases h : s a ≥ t <;>
      simp [List.filterMap_cons, List.filter_cons, h, ih]

theorem mem_scoreFilter {l : List OCRResultDict} {s : OCRResultDict → ℚ}
    {t : ℚ} {r : ℚ × OCRResultDict} :
    r ∈ l.filterMap (fun d => if s d ≥ t then some (s d, d) else none) ↔
      r.2 ∈ l ∧ r.1 = s r.2 ∧ r.1 ≥ t := by
  rw [List.mem_filterMap]
  constructor
  · rintro ⟨d, hd, hsome⟩
    by_cases hc : s d ≥ t
    · rw [if_pos hc] at hsome
      injection hsome with h
      subst h
      exact ⟨hd, rfl, hc⟩
    · rw [if_neg hc] at hsome
      exact absurd hsome (by simp)
  · rintro ⟨hmem, hs, ht⟩
    refine ⟨r.2, hmem, ?_⟩
    rw [if_pos (by rw [← hs]; exact ht), ← hs]

theorem mem_searchAndScoreRaw (c : OCRResults) (q : String) (t : ℚ) (lc : Bool)
    (f : String → String → ℚ) (r : ℚ × OCRResultDict) :
    r ∈ c._search_and_score q t lc f ↔
      r.2 ∈ c.data ∧ r.1 = f (procStr lc (procStr lc q)) (procStr lc r.2.text) ∧
        r.1 ≥ t := by
  show r ∈ List.mergeSort _ matchLe ↔ _
  rw [List.mem_mergeSort, mem_scoreFilter]

/-- C1: for every collection, query, threshold, lowercase flag and score
function, the records surviving the threshold filter are sorted by the
composite key (score descending, then `x`, `y`, confidence ascending);
`search` returns exactly the fragments of that sorted list in order, and
`search_and_score` returns the parallel (score, fragment) pairs. -/
theorem search_sorted_by_composite_key (c : OCRResults) (q : String) (t : ℚ)
    (lc : Bool) (f : String → String → ℚ) :
    List.Pairwise compositeKeyLe (c._search_and_score q t lc f) ∧
    (c.search q t lc f).items =
      (c._search_and_score q t lc f).map (fun r => parse r.2) ∧
    c.search_and_score q t lc f =
      (c._search_and_score q t lc f).map (fun r => (r.1, parse r.2)) :=
  ⟨List.Pairwise.imp (fun h => (matchLe_iff _ _).mp h)
      (List.sorted_mergeSort matchLe_trans matchLe_total _),
    search_items_eq c q t lc f, search_and_score_eq c q t lc f⟩

/-- C3: a record is kept by `search` and `search_and_score` exactly when its
computed score is `≥ threshold`; the boundary `score = threshold` is kept. -/
theorem search_threshold_inclusive (c : OCRResults) (q : String) (t : ℚ)
    (lc : Bool) (f : String → String → ℚ) :
    ((c.search q t lc f).data).Perm
      (c.data.filter (fun d =>
        decide (f (procStr lc (procStr lc q)) (procStr lc d.text) ≥ t))) ∧
    (∀ d, d ∈ (c.search q t lc f).data ↔
      d ∈ c.data ∧ f (procStr lc (procStr lc q)) (procStr lc d.text) ≥ t) ∧
    ∀ p ∈ c.search_and_score q t lc f, p.1 ≥ t := by
  have hperm : ((c.search q t lc f).data).Perm
      (c.data.filter (fun d =>
        decide (f (procStr lc (procStr lc q)) (procStr lc d.text) ≥ t))) := by
    have h1 := (List.mergeSort_perm (c.data.filterMap (fun d =>
      if f (procStr lc (procStr lc q)) (procStr lc d.text) ≥ t
      then some (f (procStr lc (procStr lc q)) (procStr lc d.text), d)
      else none)) matchLe).map (fun r => r.2)
    rw [map_snd_scoreFilter] at h1
    exact h1
  refine ⟨hperm, fun d => ?_, fun p hp => ?_⟩
  · rw [hperm.mem_iff, List.mem_filter, decide_eq_true_eq]
  · rw [search_and_score_eq, List.mem_map] at hp
    obtain ⟨r, hr, rfl⟩ := hp
    exact ((mem_searchAndScoreRaw c q t lc f r).mp hr).2.2

/-- C2 counterexample to the source behaviour: the source's
`re.match(item["text"], pattern, flag)` passes the fragment text in the
pattern slot, so with the literal matcher, pattern `"ab"` and a fragment
with text `"abc"`, the code drops the fragment even though the pattern
matches the text (the spec-intended filter keeps it). -/
theorem matching_swaps_regex_arguments :
    (OCRResults.mk [⟨"abc", 1, ⟨0, 0, 1, 1⟩⟩]).matching litMatch "ab" 0 =
      OCRResults.mk [] ∧
    litMatch "ab" "abc" 0 = true ∧
    (OCRResults.mk [⟨"abc", 1, ⟨0, 0, 1, 1⟩⟩]).data.filter
      (fun item => litMatch "ab" item.text 0) = [⟨"abc", 1, ⟨0, 0, 1, 1⟩⟩] := by
  refine ⟨?_, ?_, ?_⟩ <;> decide

/-- C4: for every collection and rectangle, `within` keeps exactly the
records whose bounding box is fully enclosed by the rectangle; in
particular, for `w, h > 2`, a singleton collection with box
`(x+1, y+1, w-2, h-2)` is kept and one with box `(x-1, y, w, h)` is
dropped. -/
theorem within_encloses_exactly (c : OCRResults) (x y w h : Int)
    (tx : String) (cf : ℚ) :
    (∀ item, item ∈ (c.within x y w h).data ↔
      item ∈ c.data ∧ (x ≤ item.boundingBox.x ∧ y ≤ item.boundingBox.y ∧
        x + w ≥ item.boundingBox.x + item.boundingBox.width ∧
        y + h ≥ item.boundingBox.y + item.boundingBox.height)) ∧
    (2 < w → 2 < h →
      (OCRResults.mk [⟨tx, cf, ⟨x + 1, y + 1, w - 2, h - 2⟩⟩]).within x y w h =
        OCRResults.mk [⟨tx, cf, ⟨x + 1, y + 1, w - 2, h - 2⟩⟩]) ∧
    (2 < w → 2 < h →
      (OCRResults.mk [⟨tx, cf, ⟨x - 1, y, w, h⟩⟩]).within x y w h =
        OCRResults.mk []) := by
  refine ⟨fun item => ?_, fun _ _ => ?_, fun _ _ => ?_⟩
  · simp [OCRResults.within, List.mem_filter, and_assoc]
  · simp only [OCRResults.within, List.filter_cons, List.filter_nil]
    have hx : x ≤ x + 1 := by omega
    have hy : y ≤ y + 1 := by omega
    have hxw : x + w ≥ x + 1 + (w - 2) := by omega
    have hyh : y + h ≥ y + 1 + (h - 2) := by omega
    simp [hx, hy, hxw, hyh]
  · simp only [OCRResults.within, List.filter_cons, List.filter_nil]
    have hx : ¬ x ≤ x - 1 := by omega
    simp [hx]

/-- C4 witness: the characterization at `x = y = 0`, `w = h = 3`: the box
`(1, 1, 1, 1)` is enclosed and kept. -/
theorem within_encloses_exactly_witness :
    (OCRResults.mk [⟨"a", 1, ⟨1, 1, 1, 1⟩⟩]).within 0 0 3 3 =
      OCRResults.mk [⟨"a", 1, ⟨1, 1, 1, 1⟩⟩] :=
  (within_encloses_exactly (OCRResults.mk []) 0 0 3 3 "a" 1).2.1
    (by decide) (by decide)

/-- C5: each of the six filter operations returns exactly the sub-order of
the input collection restricted to the records satisfying its predicate:
the result is a sublist (relative order preserved, no new elements) and
membership is equivalent to membership in the input plus the predicate. -/
theorem filters_preserve_suborder (c : OCRResults) (t : ℚ) (x y w h : Int)
    (s1 s2 : String) (lc1 lc2 : Bool)
    (rm : String → String → Int → Bool) (pat : String) (fl : Int)
    (func : OCRResultDict → Bool) :
    ((c.minimum_confidence t).data.Sublist c.data ∧
      ∀ d, d ∈ (c.minimum_confidence t).data ↔ d ∈ c.data ∧ d.confidence ≥ t) ∧
    ((c.within x y w h).data.Sublist c.data ∧
      ∀ d, d ∈ (c.within x y w h).data ↔ d ∈ c.data ∧
        (x ≤ d.boundingBox.x ∧ y ≤ d.boundingBox.y ∧
          x + w ≥ d.boundingBox.x + d.boundingBox.width ∧
          y + h ≥ d.boundingBox.y + d.boundingBox.height)) ∧
    ((c.containing s1 lc1).data.Sublist c.data ∧
      ∀ d, d ∈ (c.containing s1 lc1).data ↔ d ∈ c.data ∧
        (if lc1 then strIn s1.toLower d.text.toLower
          else strIn s1 d.text) = true) ∧
    ((c.exactly s2 lc2).data.Sublist c.data ∧
      ∀ d, d ∈ (c.exactly s2 lc2).data ↔ d ∈ c.data ∧
        (if lc2 then s2.toLower = d.text.toLower else s2 = d.text)) ∧
    ((c.matching rm pat fl).data.Sublist c.data ∧
      ∀ d, d ∈ (c.matching rm pat fl).data ↔ d ∈ c.data ∧
        rm d.text pat fl = true) ∧
    ((c.filter func).data.Sublist c.data ∧
      ∀ d, d ∈ (c.filter func).data ↔ d ∈ c.data ∧ func d = true) := by
  refine ⟨⟨List.filter_sublist _, fun d => ?_⟩,
    ⟨List.filter_sublist _, fun d => ?_⟩, ⟨?_, fun d => ?_⟩, ⟨?_, fun d => ?_⟩,
    ⟨List.filter_sublist _, fun d => ?_⟩, ⟨List.filter_sublist _, fun d => ?_⟩⟩
  · simp [OCRResults.minimum_confidence, List.mem_filter]
  · simp [OCRResults.within, List.mem_filter, and_assoc]
  · cases lc1 <;> · simp only [OCRResults.containing, Bool.false_eq_true,
      if_false, if_true]; exact List.filter_sublist _
  · cases lc1 <;> simp [OCRResults.containing, List.mem_filter]
  · cases lc2 <;> · simp only [OCRResults.exactly, Bool.false_eq_true,
      if_false, if_true]; exact List.filter_sublist _
  · cases lc2 <;> simp [OCRResults.exactly, List.mem_filter]
  · simp [OCRResults.matching, List.mem_filter]
  · simp [OCRResults.filter, List.mem_filter]

/-- C6: `minimum_confidence`, `containing` and `exactly` are idempotent:
applying the same filter twice with the same arguments yields the same
collection (same raw records in the same order) as applying it once. -/
theorem filters_idempotent (c : OCRResults) (t : ℚ) (s1 s2 : String)
    (lc1 lc2 : Bool) :
    (c.minimum_confidence t).minimum_confidence t = c.minimum_confidence t ∧
    (c.containing s1 lc1).containing s1 lc1 = c.containing s1 lc1 ∧
    (c.exactly s2 lc2).exactly s2 lc2 = c.exactly s2 lc2 := by
  refine ⟨?_, ?_, ?_⟩
  · simp [OCRResults.minimum_confidence, List.filter_filter]
  · cases lc1 <;> simp [OCRResults.containing, List.filter_filter]
  · cases lc2 <;> simp [OCRResults.exactly, List.filter_filter]

/-- C7: a fragment equals a bare string exactly when its text equals it, and
equals another fragment exactly when text, confidence and all four bounding
box fields coincide. -/
theorem fragment_equality_contract (fr g : OCRResult) (s : String) :
    (fr.pyEq (EqOther.str s) = true ↔ fr.text = s) ∧
    (fr.pyEq (EqOther.result g) = true ↔
      fr.text = g.text ∧ fr.confidence = g.confidence ∧
      fr.bounding_box.x = g.bounding_box.x ∧
      fr.bounding_box.y = g.bounding_box.y ∧
      fr.bounding_box.width = g.bounding_box.width ∧
      fr.bounding_box.height = g.bounding_box.height) := by
  obtain ⟨ft, fc, fx, fy, fw, fh⟩ := fr
  obtain ⟨gt2, gc, gx, gy, gw, gh⟩ := g
  constructor
  · simp [OCRResult.pyEq]
  · simp [OCRResult.pyEq, OCRResult.data, and_assoc]

/-- Supporting lemma (the true half of the empty-collection property): on
the empty collection each filter and `search` yields the empty collection,
`search_and_score` the empty list, and `first`/`last` the absent value. -/
theorem empty_collection_closure (t : ℚ) (x y w h : Int) (s1 s2 : String)
    (lc1 lc2 lc3 : Bool) (rm : String → String → Int → Bool) (pat : String)
    (fl : Int) (func : OCRResultDict → Bool) (q : String) (th : ℚ)
    (f : String → String → ℚ) :
    (OCRResults.mk []).minimum_confidence t = OCRResults.mk [] ∧
    (OCRResults.mk []).within x y w h = OCRResults.mk [] ∧
    (OCRResults.mk []).containing s1 lc1 = OCRResults.mk [] ∧
    (OCRResults.mk []).exactly s2 lc2 = OCRResults.mk [] ∧
    (OCRResults.mk []).matching rm pat fl = OCRResults.mk [] ∧
    (OCRResults.mk []).filter func = OCRResults.mk [] ∧
    (OCRResults.mk []).search q th lc3 f = OCRResults.mk [] ∧
    (OCRResults.mk []).search_and_score q th lc3 f = [] ∧
    (OCRResults.mk []).first = none ∧
    (OCRResults.mk []).last = none := by
  refine ⟨rfl, rfl, ?_, ?_, rfl, rfl, ?_, ?_, rfl, rfl⟩
  · cases lc1 <;> rfl
  · cases lc2 <;> rfl
  · simp [OCRResults.search, OCRResults._search_and_score]
  · simp [OCRResults.search_and_score, OCRResults._search_and_score,
      OCRResults.items]

/-- C8: the claim that every filter operation is total and never signals an
error fails on `matching`: the source's swapped call on line 304 compiles
each fragment's text as the regex pattern, so a well-formed collection
holding a fragment whose text is the malformed pattern "(" makes the regex
primitive raise `re.error`. With the spec-intended argument order the same
input raises nothing (the pattern "ab" is well formed, the fragment is
merely dropped), and the empty collection also passes through without
error. -/
theorem matching_error_on_wellformed_collection :
    (OCRResults.mk [⟨"(", 1, ⟨0, 0, 1, 1⟩⟩]).matchingE litMatchE "ab" 0 =
      Except.error ReError.badPattern ∧
    litMatchE "ab" "(" 0 = Except.ok false ∧
    (OCRResults.mk []).matchingE litMatchE "ab" 0 =
      Except.ok (OCRResults.mk []) := by
  refine ⟨?_, ?_, ?_⟩ <;> rfl

/-- C9: integer indexing returns the fragment at the requested position and
signals the IndexKind error exactly when the index is outside Python's valid
range; a slice key returns a new collection over the raw-record
sub-sequence; any other key signals the TypeKind error. -/
theorem getitem_contract (c : OCRResults) (i lo hi : Int) :
    (0 ≤ i → i < (c.items.length : Int) →
      c.getitem (Key.int i) =
        Except.ok (Item.single (c.items.getD i.toNat default))) ∧
    (c.getitem (Key.int i) = Except.error GetItemError.indexKind ↔
      i < -(c.items.length : Int) ∨ (c.items.length : Int) ≤ i) ∧
    c.getitem (Key.slice lo hi) =
      Except.ok (Item.collection (OCRResults.mk (pySlice c.data lo hi))) ∧
    c.getitem Key.other = Except.error GetItemError.typeKind := by
  have hiff : pyIndex c.items i = none ↔
      i < -(c.items.length : Int) ∨ (c.items.length : Int) ≤ i := by
    unfold pyIndex
    split
    · rename_i h0
      rw [List.get?_eq_none]
      omega
    · split
      · rename_i h0 hge
        rw [List.get?_eq_none]
        omega
      · rename_i h0 hge
        simp only [iff_true_intro rfl, true_iff]
        omega
  refine ⟨?_, ?_, rfl, rfl⟩
  · intro h0 hlt
    have hlen : i.toNat < c.items.length := by omega
    cases hx : c.items.get? i.toNat with
    | none =>
      rw [List.get?_eq_none] at hx
      omega
    | some r =>
      have hd : c.items.getD i.toNat default = r := by
        rw [List.getD_eq_getElem?_getD, ← List.get?_eq_getElem?, hx]
        rfl
      simp only [OCRResults.getitem, pyIndex, if_pos h0, hx, hd]
  · constructor
    · intro he
      rw [← hiff]
      by_contra hn
      obtain ⟨r, hr⟩ := Option.ne_none_iff_exists'.mp hn
      simp [OCRResults.getitem, hr] at he
    · intro hor
      have hn := hiff.mpr hor
      simp [OCRResults.getitem, hn]

/-- C9 witness: on a one-element collection, index 0 yields that fragment,
index 5 the IndexKind error, a slice a collection, any other key the
TypeKind error. -/
theorem getitem_contract_witness :
    (OCRResults.mk [⟨"w", 1, ⟨0, 0, 1, 1⟩⟩]).getitem (Key.int 0) =
      Except.ok (Item.single ((OCRResults.mk
        [⟨"w", 1, ⟨0, 0, 1, 1⟩⟩]).items.getD (0 : Int).toNat default)) ∧
    (OCRResults.mk [⟨"w", 1, ⟨0, 0, 1, 1⟩⟩]).getitem (Key.int 5) =
      Except.error GetItemError.indexKind :=
  ⟨(getitem_contract (OCRResults.mk [⟨"w", 1, ⟨0, 0, 1, 1⟩⟩]) 0 0 1).1
      (by decide) (by decide),
    (getitem_contract (OCRResults.mk [⟨"w", 1, ⟨0, 0, 1, 1⟩⟩]) 5 0 1).2.1.mpr
      (by decide)⟩

/-- C10: for a collection of length `n` and `1 ≤ k ≤ n`, the negative index
`-k` does not signal an error and returns the fragment at position `n - k`;
for `k = 1` this is the same fragment `last()` returns. -/
theorem negative_index_from_end (c : OCRResults) (k : Nat) (h1 : 1 ≤ k)
    (h2 : k ≤ c.items.length) :
    c.getitem (Key.int (-(k : Int))) =
      Except.ok (Item.single (c.items.getD (c.items.length - k) default)) ∧
    (k = 1 → c.last = some (c.items.getD (c.items.length - k) default)) := by
  constructor
  · have h0 : ¬ (0 : Int) ≤ -(k : Int) := by omega
    have hge : -(c.items.length : Int) ≤ -(k : Int) := by omega
    have hidx : ((-(k : Int)) + c.items.length).toNat = c.items.length - k := by
      omega
    cases hx : c.items.get? (c.items.length - k) with
    | none =>
      rw [List.get?_eq_none] at hx
      omega
    | some r =>
      have hd : c.items.getD (c.items.length - k) default = r := by
        rw [List.getD_eq_getElem?_getD, ← List.get?_eq_getElem?, hx]
        rfl
      simp only [OCRResults.getitem, pyIndex, if_neg h0, if_pos hge, hidx, hx, hd]
  · rintro rfl
    rw [OCRResults.last, List.getLast?_eq_get?]
    cases hx : c.items.get? (c.items.length - 1) with
    | none =>
      rw [List.get?_eq_none] at hx
      omega
    | some r =>
      rw [List.getD_eq_getElem?_getD, ← List.get?_eq_getElem?, hx]
      rfl

/-- C10 witness: on a one-element collection, index `-1` yields the single
fragment, and `last()` yields the same fragment. -/
theorem negative_index_from_end_witness :
    (OCRResults.mk [⟨"v", 1, ⟨2, 3, 4, 5⟩⟩]).getitem (Key.int (-((1 : Nat) : Int))) =
      Except.ok (Item.single ((OCRResults.mk
        [⟨"v", 1, ⟨2, 3, 4, 5⟩⟩]).items.getD
          ((OCRResults.mk [⟨"v", 1, ⟨2, 3, 4, 5⟩⟩]).items.length - 1) default)) ∧
    (OCRResults.mk [⟨"v", 1, ⟨2, 3, 4, 5⟩⟩]).last =
      some ((OCRResults.mk [⟨"v", 1, ⟨2, 3, 4, 5⟩⟩]).items.getD
        ((OCRResults.mk [⟨"v", 1, ⟨2, 3, 4, 5⟩⟩]).items.length - 1) default) := by
  have h := negative_index_from_end (OCRResults.mk [⟨"v", 1, ⟨2, 3, 4, 5⟩⟩]) 1
    (by decide) (by decide)
  exact ⟨h.1, h.2 rfl⟩

end SwiftOCR
